import Mathlib

/-!
# Verification of the ExcuseGenerator grammar engine

A shallow embedding of the combinator-based text generator in `main.py`:
the `Gender` enum, the `Context` binding model, the six grammar-node
variants and the recursive `generate` evaluator with its two-pass
`Sequence` algorithm.

Modelling conventions:
* Python objects become Lean inductive values; `copy.deepcopy` is the
  identity on values (its semantic role — severing aliasing — is captured
  by which context value a function returns as the post-state of its
  argument).
* Each evaluator function returns, alongside its `Except` result, the
  state of the context object that was passed to it after the call
  (Python methods could in principle mutate their argument; the embedding
  makes that state explicit).
* Python exceptions become `Except.error` values: `ValueError` from
  `random.sample` on an empty list, `KeyError` from a failed subcontext
  lookup, `AttributeError` from calling a method on `None` or on a bare
  string, and `AssertionError` from a failing `assert`.
* Randomness is an explicit stream of naturals; each `Options` node draws
  the head (default 0 when exhausted) modulo the number of children,
  mirroring one uniform `random.sample` draw.
* Recursion is made total with a fuel parameter (`outOfFuel` is a model
  artifact that Python's unbounded recursion never produces); every
  statement quantifies over fuel.
-/

namespace ExcuseGen

/-- `Gender` enum from `main.py` (`INVALID` is the default / unset value). -/
inductive Gender where
  | INVALID
  | MALE
  | FEMALE
deriving DecidableEq, Repr

/-- `Context`: a gender, an optional tag, and a mapping from tag names to
subcontexts (Python dict modelled as an association list where the most
recent registration is consed in front and lookup takes the first hit,
matching dict-overwrite semantics). -/
inductive Context where
  | mk (gender : Gender) (tag : Option String) (subcontexts : List (String × Context))

def Context.gender : Context → Gender
  | .mk g _ _ => g

def Context.tag : Context → Option String
  | .mk _ t _ => t

def Context.subcontexts : Context → List (String × Context)
  | .mk _ _ s => s

@[simp] theorem Context.gender_mk (g : Gender) (t : Option String)
    (s : List (String × Context)) : (Context.mk g t s).gender = g := rfl

@[simp] theorem Context.tag_mk (g : Gender) (t : Option String)
    (s : List (String × Context)) : (Context.mk g t s).tag = t := rfl

@[simp] theorem Context.subcontexts_mk (g : Gender) (t : Option String)
    (s : List (String × Context)) : (Context.mk g t s).subcontexts = s := rfl

theorem Context.eta (c : Context) : Context.mk c.gender c.tag c.subcontexts = c := by
  cases c; rfl

/-- Python truthiness of an `Optional[str]`: `None` and `""` are falsy. -/
def tagTruthy : Option String → Bool
  | none => false
  | some t => !(t == "")

/-- `Context.with_gender`: a new `Context` with the given gender and this
context's tag; the constructor initialises `subcontexts` to a fresh empty
dict. -/
def Context.with_gender (c : Context) (g : Gender) : Context :=
  .mk g c.tag []

/-- `Context.with_tag`: a new `Context` with this context's gender and the
given tag; `subcontexts` starts as a fresh empty dict. -/
def Context.with_tag (c : Context) (t : String) : Context :=
  .mk c.gender (some t) []

/-- Dict lookup (`self.subcontexts[tag]`): first matching key wins. -/
def lookupTag : List (String × Context) → String → Option Context
  | [], _ => none
  | (k, v) :: rest, t => if k = t then some v else lookupTag rest t

/-- Replace the value of the first entry with the given key, mirroring how
the Python dict keeps pointing at the registered object whose state may
evolve across a call. Keys are never added or removed. -/
def updateTag : List (String × Context) → String → Context → List (String × Context)
  | [], _, _ => []
  | (k, v) :: rest, t, nv =>
      if k = t then (k, nv) :: rest else (k, v) :: updateTag rest t nv

/-- Errors the evaluator can raise (kinds of Python exceptions). -/
inductive GenError where
  | sampleError                 -- ValueError: sample larger than population
  | unresolvedTag (tag : String) -- KeyError from `get_subcontext`
  | attributeError              -- AttributeError (method on None / str)
  | assertionError              -- failing `assert`
  | outOfFuel                   -- model artifact: recursion bound exhausted
deriving DecidableEq, Repr

/-- Whether an error is of the unresolved-tag kind. -/
def GenError.isUnresolved : GenError → Bool
  | .unresolvedTag _ => true
  | _ => false

/-- `Context.register_tagged_subcontext`: asserts the subcontext's tag is
truthy, then stores the subcontext in the dict under that tag. -/
def Context.register_tagged_subcontext (c sub : Context) : Except GenError Context :=
  match sub.tag with
  | some t => if t = "" then .error .assertionError
              else .ok (.mk c.gender c.tag ((t, sub) :: c.subcontexts))
  | none => .error .assertionError

/-- `Context.get_subcontext`: dict lookup; a missing key raises `KeyError`
(the unresolved-tag error kind). -/
def Context.get_subcontext (c : Context) (t : String) : Except GenError Context :=
  match lookupTag c.subcontexts t with
  | some sub => .ok sub
  | none => .error (.unresolvedTag t)

/-- `GenerateResult`: the evaluator's return shape (`context` defaults to
`None` in Python). -/
structure GenerateResult where
  value : String
  context : Option Context

/-- The grammar-node tree. `str` is a bare Python string operand
(`Union[str, BaseItem]`); the remaining constructors are the classes
`Options`, `Sequence`, `Gendered`, `Literal`, `TagDefinitionWrapper`,
`TagApplicationWrapper`. -/
inductive Item where
  | str (s : String)
  | options (children : List Item)
  | seq (children : List Item)
  | gendered (male female : String)
  | lit (value : String) (gender : Gender)
  | tagDef (underlying : Item) (tag : String)
  | tagApp (underlying : Item) (tag : String)

/-- `Options.__init__`: coerce bare-string arguments to `Literal`s; no
validation of any kind is performed (an empty list is accepted). -/
def Options.mk (args : List Item) : Item :=
  .options (args.map fun a =>
    match a with
    | .str s => .lit s .INVALID
    | x => x)

/-- Language-specific feminine suffix used by `Gendered.__init__`. -/
def feminineSuffix : String := "ה"

/-- `Gendered.__init__`: `self.female = female or male + 'ה'` — a `None`
or empty-string female argument falls back to the male form plus the
feminine suffix. -/
def Gendered.mk (male : String) (female : Option String) : Item :=
  .gendered male
    (match female with
     | none => male ++ feminineSuffix
     | some f => if f = "" then male ++ feminineSuffix else f)

/-- `Literal(value)` with the default `INVALID` gender. -/
def Literal.mk (value : String) : Item := .lit value .INVALID

/-- `Literal.male`. -/
def Literal.male (value : String) : Item := .lit value .MALE

/-- `Literal.female`. -/
def Literal.female (value : String) : Item := .lit value .FEMALE

/-- `BaseItem.def_tag`: wrap as a tag definition; no validation. -/
def Item.def_tag (i : Item) (t : String) : Item := .tagDef i t

/-- `BaseItem.apply_tag`: wrap as a tag application; no validation. -/
def Item.apply_tag (i : Item) (t : String) : Item := .tagApp i t

/-- Evaluator output: the `Except` result (a `GenerateResult` and the
remaining random stream), paired with the post-call state of the context
object that was passed in. -/
abbrev GenOut := Except GenError (GenerateResult × List Nat) × Context

/-- `Sequence.generate_if_tag_def` (binding pass, one child), parameterised
by the evaluator `gen`: a non-`TagDefinition` child is returned untouched
and not evaluated; a `TagDefinition` child is evaluated now against the
clone, its resulting context registered when its tag is truthy, and the
child replaced by a `Literal` of the produced text. The returned `Context`
is the clone's state after the step. -/
def generate_if_tag_def (gen : Item → Context → List Nat → GenOut)
    (item : Item) (clone : Context) (rand : List Nat) :
    Except GenError (Item × List Nat) × Context :=
  match item with
  | .tagDef u t =>
    match gen (.tagDef u t) clone rand with
    | (.error e, post) => (.error e, post)
    | (.ok (r, rand'), post) =>
      match r.context with
      | some sub =>
        if tagTruthy sub.tag then
          match post.register_tagged_subcontext sub with
          | .ok post' => (.ok (.lit r.value .INVALID, rand'), post')
          | .error e => (.error e, post)
        else (.ok (.lit r.value .INVALID, rand'), post)
      | none => (.ok (.lit r.value .INVALID, rand'), post)
  | i => (.ok (i, rand), clone)

/-- Binding pass over the whole child list, left to right (the eager
`list(map(...))` of `Sequence.generate`). -/
def seqPass1 (gen : Item → Context → List Nat → GenOut) :
    List Item → Context → List Nat →
    Except GenError (List Item × List Nat) × Context
  | [], clone, rand => (.ok ([], rand), clone)
  | i :: is, clone, rand =>
    match generate_if_tag_def gen i clone rand with
    | (.error e, post) => (.error e, post)
    | (.ok (i', rand'), clone') =>
      match seqPass1 gen is clone' rand' with
      | (.error e, post) => (.error e, post)
      | (.ok (is', rand''), clone'') => (.ok (i' :: is', rand''), clone'')

/-- `Sequence.generate_untagged` (render pass, one child): a
`TagApplication` child looks up its tag in the clone's bindings (a missing
key raises the unresolved-tag error) and evaluates the wrapper against the
looked-up subcontext; any other child is evaluated against the clone. -/
def generate_untagged (gen : Item → Context → List Nat → GenOut)
    (item : Item) (clone : Context) (rand : List Nat) : GenOut :=
  match item with
  | .tagApp u t =>
    match clone.get_subcontext t with
    | .error e => (.error e, clone)
    | .ok sub =>
      let out := gen (.tagApp u t) sub rand
      (out.1, .mk clone.gender clone.tag (updateTag clone.subcontexts t out.2))
  | i => gen i clone rand

/-- Render pass over the pass-1 output list, collecting each child's
rendered text in order (the `map` inside `''.join(...)`). -/
def seqPass2 (gen : Item → Context → List Nat → GenOut) :
    List Item → Context → List Nat →
    Except GenError (List String × List Nat) × Context
  | [], clone, rand => (.ok ([], rand), clone)
  | i :: is, clone, rand =>
    match generate_untagged gen i clone rand with
    | (.error e, post) => (.error e, post)
    | (.ok (r, rand'), clone') =>
      match seqPass2 gen is clone' rand' with
      | (.error e, post) => (.error e, post)
      | (.ok (vs, rand''), clone'') => (.ok (r.value :: vs, rand''), clone'')

/-- The module-level `generate(item, context)` together with every
`generate` method, dispatched on the node variant:
* a bare string yields itself with the ambient context as result context;
* `Literal` yields its value with a fresh context carrying only its gender;
* `Gendered` picks female iff the ambient gender is `FEMALE`;
* `Options` draws one child uniformly and delegates (empty list: the
  `random.sample` `ValueError`);
* `Sequence` deep-copies the ambient context, runs the binding pass then
  the render pass over the clone, joins the texts and returns no context;
* `TagDefinitionWrapper` evaluates its underlying item and relabels the
  resulting context with its tag (`AttributeError` when that context is
  `None` or the underlying item is a bare string);
* `TagApplicationWrapper` evaluates its underlying item under whatever
  context it itself was given. -/
def generate : Nat → Item → Context → List Nat → GenOut
  | 0, _, ctx, _ => (.error .outOfFuel, ctx)
  | f + 1, item, ctx, rand =>
    match item with
    | .str s => (.ok (⟨s, some ctx⟩, rand), ctx)
    | .lit v g => (.ok (⟨v, some (.mk g none [])⟩, rand), ctx)
    | .gendered m fe =>
        (.ok (⟨if ctx.gender = .FEMALE then fe else m, some ctx⟩, rand), ctx)
    | .options [] => (.error .sampleError, ctx)
    | .options (c :: cs) =>
        generate f ((c :: cs).getD (rand.headD 0 % (c :: cs).length) (.str ""))
          ctx rand.tail
    | .seq cs =>
        -- `context = copy.deepcopy(context)`: the clone starts as the same
        -- value; mutations to it are invisible to the caller, so the
        -- ambient post-state is `ctx` itself.
        match seqPass1 (generate f) cs ctx rand with
        | (.error e, _) => (.error e, ctx)
        | (.ok (untagged, rand1), clone1) =>
          match seqPass2 (generate f) untagged clone1 rand1 with
          | (.error e, _) => (.error e, ctx)
          | (.ok (vals, rand2), _) => (.ok (⟨String.join vals, none⟩, rand2), ctx)
    | .tagDef u t =>
        match u with
        | .str _ => (.error .attributeError, ctx)
        | _ =>
          match generate f u ctx rand with
          | (.error e, post) => (.error e, post)
          | (.ok (r, rand'), post) =>
            match r.context with
            | none => (.error .attributeError, post)
            | some rc => (.ok (⟨r.value, some (rc.with_tag t)⟩, rand'), post)
    | .tagApp u _ =>
        match u with
        | .str _ => (.error .attributeError, ctx)
        | _ => generate f u ctx rand

/-- The empty initial context `Context()`. -/
def ctx0 : Context := .mk .INVALID none []

/-! ## Concrete grammar fragments used in the claims -/

/-- Children of the forward-reference example from the spec:
`Sequence(TagApplication(GenderedForm("fell-m","fell-f"), "x"), " on ",
TagDefinition(Choice(Literal.male("rock"), Literal.female("pillow")), "x"))`. -/
def exChildren : List Item :=
  [(Gendered.mk "fell-m" (some "fell-f")).apply_tag "x",
   .str " on ",
   (Options.mk [Literal.male "rock", Literal.female "pillow"]).def_tag "x"]

/-- The forward-reference example `Sequence` itself. -/
def exampleSeq : Item := .seq exChildren

/-- The clone produced by the example's binding pass: the female literal's
context, tagged `"x"`, registered in the (initially empty) clone. -/
def exPass1Ctx : Context := .mk .INVALID none [("x", .mk .FEMALE (some "x") [])]

/-- The binding-pass output list of the example: the `TagDefinition` child
replaced by a plain `Literal` of the produced text. -/
def exPass1Items : List Item :=
  [(Gendered.mk "fell-m" (some "fell-f")).apply_tag "x",
   .str " on ",
   .lit "pillow" .INVALID]

/-- A `Sequence` whose unregistered `TagApplication` has an empty-`Options`
sibling before it. -/
def cs2 : List Item := [Options.mk [], (Literal.mk "hi").apply_tag "y"]

/-- A `Sequence` whose only child is an unregistered `TagApplication`. -/
def cs3 : List Item := [(Literal.mk "hi").apply_tag "y"]

/-- An ambient context that already carries a binding for `"t"` — exactly
the clone state an enclosing `Sequence` hands to a nested `Sequence` child
after registering `TagDefinition(Literal.female(...), "t")`. -/
def cT : Context := .mk .INVALID none [("t", .mk .FEMALE (some "t") [])]

/-- A `Sequence` with a direct `TagApplication` child and no
`TagDefinition` child at all. -/
def innerSeq : Item := .seq [(Gendered.mk "w" (some "w-f")).apply_tag "t"]

/-- A context with a non-trivial bindings dict, for observing what the
derived-context operations do to bindings. -/
def cGM : Context := .mk .MALE (some "t") [("a", .mk .FEMALE none [])]

/-- A context with gender `FEMALE` and tag `"foo"`. -/
def cF : Context := .mk .FEMALE (some "foo") []

/-! ## Helper lemmas -/

theorem lookupTag_updateTag_self {l : List (String × Context)} {t : String}
    {v : Context} (h : lookupTag l t = some v) : updateTag l t v = l := by
  induction l with
  | nil => rfl
  | cons p rest ih =>
    obtain ⟨k, w⟩ := p
    by_cases hk : k = t
    · subst hk
      simp [lookupTag] at h
      simp [updateTag, h]
    · simp [lookupTag, hk] at h
      simp [updateTag, hk, ih h]

/-- Evaluating any node never mutates the context object handed in by the
caller: the post-call state equals the input. -/
theorem generate_post (f : Nat) (i : Item) (c : Context) (r : List Nat) :
    (generate f i c r).2 = c := by
  induction f generalizing i c r with
  | zero => rfl
  | succ f ih =>
    cases i with
    | str s => rfl
    | lit v g => rfl
    | gendered m fe => rfl
    | options l =>
      cases l with
      | nil => rfl
      | cons a as => simpa only [generate] using ih _ c r.tail
    | seq cs =>
      simp only [generate]
      split
      · rfl
      · split <;> rfl
    | tagDef u t =>
      cases u <;> simp only [generate]
      all_goals first
      | rfl
      | · split
          next e post heq =>
            have h3 := congrArg Prod.snd heq
            rw [ih] at h3
            exact h3.symm
          next rr rand' post heq =>
            have h3 := congrArg Prod.snd heq
            rw [ih] at h3
            split <;> exact h3.symm
    | tagApp u t =>
      cases u <;> simp only [generate]
      all_goals first
      | rfl
      | exact ih _ c r

/-- The render pass never mutates the clone through a single child. -/
theorem generate_untagged_post (f : Nat) (i : Item) (c : Context)
    (r : List Nat) : (generate_untagged (generate f) i c r).2 = c := by
  cases i with
  | tagApp u t =>
    simp only [generate_untagged]
    split
    · rfl
    next sub heq =>
      have hlook : lookupTag c.subcontexts t = some sub := by
        unfold Context.get_subcontext at heq
        cases hl : lookupTag c.subcontexts t with
        | none => rw [hl] at heq; exact Except.noConfusion heq
        | some w =>
          rw [hl] at heq
          simp only [Except.ok.injEq] at heq
          rw [heq]
      show Context.mk c.gender c.tag
        (updateTag c.subcontexts t (generate f (Item.tagApp u t) sub r).2) = c
      rw [generate_post, lookupTag_updateTag_self hlook, Context.eta]
  | str s => exact generate_post f _ c r
  | options l => exact generate_post f _ c r
  | seq cs => exact generate_post f _ c r
  | gendered m fe => exact generate_post f _ c r
  | lit v g => exact generate_post f _ c r
  | tagDef u t => exact generate_post f _ c r

/-- The render pass never mutates the clone across the whole list. -/
theorem seqPass2_post (f : Nat) (is : List Item) (c : Context)
    (r : List Nat) : (seqPass2 (generate f) is c r).2 = c := by
  induction is generalizing c r with
  | nil => rfl
  | cons i rest ih =>
    simp only [seqPass2]
    split
    next e post heq =>
      have h3 := congrArg Prod.snd heq
      rw [generate_untagged_post] at h3
      exact h3.symm
    next rr rand' post heq =>
      have h3 := congrArg Prod.snd heq
      rw [generate_untagged_post] at h3
      split
      next e post' heq2 =>
        have h4 := congrArg Prod.snd heq2
        rw [ih] at h4
        exact (h3.trans h4).symm
      next vs rand'' post' heq2 =>
        have h4 := congrArg Prod.snd heq2
        rw [ih] at h4
        exact (h3.trans h4).symm

theorem lookupTag_cons_isSome {l : List (String × Context)} {s : String}
    (p : String × Context) (h : (lookupTag l s).isSome = true) :
    (lookupTag (p :: l) s).isSome = true := by
  obtain ⟨k, v⟩ := p
  by_cases hk : k = s <;> simp [lookupTag, hk, h]

/-- The binding pass does not touch (nor evaluate) a child that is not a
direct `TagDefinition`. -/
theorem gitd_not_tagDef (gen : Item → Context → List Nat → GenOut)
    {i : Item} (c : Context) (r : List Nat)
    (h : ∀ u t, i ≠ .tagDef u t) :
    generate_if_tag_def gen i c r = (.ok (i, r), c) := by
  cases i with
  | tagDef u t => exact absurd rfl (h u t)
  | str s => rfl
  | options l => rfl
  | seq cs => rfl
  | gendered m fe => rfl
  | lit v g => rfl
  | tagApp u t => rfl

/-- One binding-pass step either leaves the clone's dict unchanged or
conses exactly one new registration in front of it. -/
theorem gitd_subcontexts_shape {f : Nat} {i i' : Item} {c post : Context}
    {r r' : List Nat}
    (h : generate_if_tag_def (generate f) i c r = (.ok (i', r'), post)) :
    post.subcontexts = c.subcontexts ∨
      ∃ p, post.subcontexts = p :: c.subcontexts := by
  cases i with
  | tagDef u t =>
    simp only [generate_if_tag_def] at h
    split at h
    next e post0 heq => exact Except.noConfusion (congrArg Prod.fst h)
    next r0 rand0 post0 heq =>
      have hpost0 : post0 = c := by
        have h3 := congrArg Prod.snd heq
        rw [generate_post] at h3
        exact h3.symm
      subst hpost0
      split at h
      next sub hctx =>
        by_cases htr : tagTruthy sub.tag = true
        · rw [if_pos htr] at h
          split at h
          next post' hreg =>
            have hp : post' = post := congrArg Prod.snd h
            unfold Context.register_tagged_subcontext at hreg
            split at hreg
            next tt htg =>
              split at hreg
              · exact Except.noConfusion hreg
              · have h5 : Context.mk post0.gender post0.tag
                    ((tt, sub) :: post0.subcontexts) = post' := by
                  simpa using hreg
                right
                exact ⟨(tt, sub), by rw [← hp, ← h5]; rfl⟩
            next htg => exact Except.noConfusion hreg
          next e hreg => exact Except.noConfusion (congrArg Prod.fst h)
        · rw [if_neg htr] at h
          exact Or.inl (congrArg Context.subcontexts (congrArg Prod.snd h)).symm
      next hctx =>
        exact Or.inl (congrArg Context.subcontexts (congrArg Prod.snd h)).symm
  | str s => exact Or.inl (congrArg Context.subcontexts
      (congrArg Prod.snd h)).symm
  | options l => exact Or.inl (congrArg Context.subcontexts
      (congrArg Prod.snd h)).symm
  | seq cs => exact Or.inl (congrArg Context.subcontexts
      (congrArg Prod.snd h)).symm
  | gendered m fe => exact Or.inl (congrArg Context.subcontexts
      (congrArg Prod.snd h)).symm
  | lit v g => exact Or.inl (congrArg Context.subcontexts
      (congrArg Prod.snd h)).symm
  | tagApp u t => exact Or.inl (congrArg Context.subcontexts
      (congrArg Prod.snd h)).symm

/-- A successful `TagDefinitionWrapper.generate` always returns the
underlying item's result context relabelled with the wrapper's tag. -/
theorem generate_tagDef_context {f : Nat} {u : Item} {t : String}
    {c post : Context} {r rand0 : List Nat} {r0 : GenerateResult}
    (h : generate f (.tagDef u t) c r = (.ok (r0, rand0), post)) :
    ∃ (rc : Context) (v : String), r0 = ⟨v, some (rc.with_tag t)⟩ := by
  cases f with
  | zero => exact Except.noConfusion (congrArg Prod.fst h)
  | succ f =>
    cases u <;> simp only [generate] at h
    case str s => exact Except.noConfusion (congrArg Prod.fst h)
    all_goals
      split at h
      next e post0 heq => exact Except.noConfusion (congrArg Prod.fst h)
      next rr rand' post0 heq =>
        split at h
        next hctx => exact Except.noConfusion (congrArg Prod.fst h)
        next rc hctx =>
          have h1 := congrArg Prod.fst h
          simp only [Except.ok.injEq, Prod.mk.injEq] at h1
          exact ⟨rc, rr.value, h1.1.symm⟩

/-- A binding-pass step on a `TagDefinition` child with a non-empty tag
that completes successfully leaves that tag registered in the clone. -/
theorem gitd_tagDef_registers {f : Nat} {u i' : Item} {t : String}
    {c post : Context} {r r' : List Nat} (ht : ¬ (t = ""))
    (h : generate_if_tag_def (generate f) (.tagDef u t) c r = (.ok (i', r'), post)) :
    (lookupTag post.subcontexts t).isSome = true := by
  simp only [generate_if_tag_def] at h
  split at h
  next e post0 heq => exact Except.noConfusion (congrArg Prod.fst h)
  next r0 rand0 post0 heq =>
    obtain ⟨rc, v, hr0⟩ := generate_tagDef_context heq
    split at h
    next sub hctx =>
      have hsub : sub = rc.with_tag t := by
        rw [hr0] at hctx
        have : some (rc.with_tag t) = some sub := hctx
        simpa using this.symm
      subst hsub
      have htr : tagTruthy (Context.with_tag rc t).tag = true := by
        simp [tagTruthy, Context.with_tag, ht]
      rw [if_pos htr] at h
      split at h
      next post' hreg =>
        have hp : post' = post := congrArg Prod.snd h
        unfold Context.register_tagged_subcontext at hreg
        simp only [Context.with_tag, Context.tag_mk] at hreg
        rw [if_neg ht] at hreg
        have h5 : Context.mk post0.gender post0.tag
            ((t, Context.mk rc.gender (some t) []) :: post0.subcontexts)
            = post' := by simpa using hreg
        rw [← hp, ← h5]
        simp [lookupTag]
      next e hreg => exact Except.noConfusion (congrArg Prod.fst h)
    next hctx =>
      rw [hr0] at hctx
      exact Option.noConfusion hctx

/-- Inversion for a successful binding pass over a cons cell. -/
theorem seqPass1_cons_ok {gen : Item → Context → List Nat → GenOut}
    {i : Item} {is : List Item} {c c1 : Context} {r r' : List Nat}
    {cs' : List Item}
    (h : seqPass1 gen (i :: is) c r = (.ok (cs', r'), c1)) :
    ∃ i0 r0 clone0 is',
      generate_if_tag_def gen i c r = (.ok (i0, r0), clone0) ∧
      seqPass1 gen is clone0 r0 = (.ok (is', r'), c1) ∧
      cs' = i0 :: is' := by
  simp only [seqPass1] at h
  split at h
  next e post heq => exact Except.noConfusion (congrArg Prod.fst h)
  next i0 r0 clone0 heq =>
    split at h
    next e post heq2 => exact Except.noConfusion (congrArg Prod.fst h)
    next is' r'' c'' heq2 =>
      have hsnd : c'' = c1 := congrArg Prod.snd h
      have hfst := congrArg Prod.fst h
      simp only [Except.ok.injEq, Prod.mk.injEq] at hfst
      exact ⟨i0, r0, clone0, is', heq,
        by rw [heq2, hsnd, hfst.2], hfst.1.symm⟩

/-- Inversion for a successful binding pass over the empty list. -/
theorem seqPass1_nil_ok {gen : Item → Context → List Nat → GenOut}
    {c c1 : Context} {r r' : List Nat} {cs' : List Item}
    (h : seqPass1 gen [] c r = (.ok (cs', r'), c1)) :
    cs' = [] ∧ r' = r ∧ c1 = c := by
  have hsnd : c = c1 := congrArg Prod.snd h
  have hfst := congrArg Prod.fst h
  simp only [seqPass1, Except.ok.injEq, Prod.mk.injEq] at hfst
  exact ⟨hfst.1.symm, hfst.2.symm, hsnd.symm⟩

/-- A successful binding pass only ever adds registrations: any tag
resolvable in the clone before the pass is still resolvable after it. -/
theorem seqPass1_mono {f : Nat} {cs : List Item} {c c1 : Context}
    {r r' : List Nat} {cs' : List Item} {s : String}
    (h : seqPass1 (generate f) cs c r = (.ok (cs', r'), c1))
    (hs : (lookupTag c.subcontexts s).isSome = true) :
    (lookupTag c1.subcontexts s).isSome = true := by
  induction cs generalizing c r cs' r' c1 with
  | nil => rw [(seqPass1_nil_ok h).2.2]; exact hs
  | cons i is ih =>
    obtain ⟨i0, r0, clone0, is', heq, htail, -⟩ := seqPass1_cons_ok h
    refine ih htail ?_
    rcases gitd_subcontexts_shape heq with hsame | ⟨p, hcons⟩
    · rw [hsame]; exact hs
    · rw [hcons]; exact lookupTag_cons_isSome p hs

/-- Forward-reference resolution, binding-pass half: after a successful
binding pass, every tag carried by a direct `TagDefinition` child with a
non-empty tag — at any position in the child list — is registered in the
resulting clone. -/
theorem seqPass1_registers {f : Nat} {cs : List Item} {c c1 : Context}
    {r r' : List Nat} {cs' : List Item} {j : Nat} {u : Item} {t : String}
    (h : seqPass1 (generate f) cs c r = (.ok (cs', r'), c1))
    (hj : cs[j]? = some (.tagDef u t)) (ht : ¬ (t = "")) :
    (lookupTag c1.subcontexts t).isSome = true := by
  induction cs generalizing j c r cs' r' c1 with
  | nil => exact Option.noConfusion hj
  | cons i is ih =>
    obtain ⟨i0, r0, clone0, is', heq, htail, -⟩ := seqPass1_cons_ok h
    cases j with
    | zero =>
      simp only [List.getElem?_cons_zero, Option.some.injEq] at hj
      subst hj
      exact seqPass1_mono htail (gitd_tagDef_registers ht heq)
    | succ j =>
      simp only [List.getElem?_cons_succ] at hj
      exact ih htail hj

/-- The binding pass leaves every non-`TagDefinition` child untouched at
its position. -/
theorem seqPass1_get_preserve {gen : Item → Context → List Nat → GenOut}
    {cs : List Item} {c c1 : Context} {r r' : List Nat} {cs' : List Item}
    {j : Nat} {i : Item}
    (h : seqPass1 gen cs c r = (.ok (cs', r'), c1))
    (hj : cs[j]? = some i) (hi : ∀ u t, i ≠ .tagDef u t) :
    cs'[j]? = some i := by
  induction cs generalizing j c r cs' r' c1 with
  | nil => exact Option.noConfusion hj
  | cons i0 is ih =>
    obtain ⟨i1, r0, clone0, is', heq, htail, hcs'⟩ := seqPass1_cons_ok h
    subst hcs'
    cases j with
    | zero =>
      simp only [List.getElem?_cons_zero, Option.some.injEq] at hj
      subst hj
      rw [gitd_not_tagDef gen c r hi] at heq
      have := congrArg Prod.fst heq
      simp only [Except.ok.injEq, Prod.mk.injEq] at this
      simp [← this.1]
    | succ j =>
      simp only [List.getElem?_cons_succ] at hj
      simp only [List.getElem?_cons_succ]
      exact ih htail hj

/-- The binding pass preserves the number of children. -/
theorem seqPass1_length {gen : Item → Context → List Nat → GenOut}
    {cs : List Item} {c c1 : Context} {r r' : List Nat} {cs' : List Item}
    (h : seqPass1 gen cs c r = (.ok (cs', r'), c1)) :
    cs'.length = cs.length := by
  induction cs generalizing c r cs' r' c1 with
  | nil => rw [(seqPass1_nil_ok h).1]
  | cons i is ih =>
    obtain ⟨i0, r0, clone0, is', heq, htail, hcs'⟩ := seqPass1_cons_ok h
    subst hcs'
    simp [ih htail]

/-- Inversion for a successful render pass over a cons cell. -/
theorem seqPass2_cons_ok {gen : Item → Context → List Nat → GenOut}
    {i : Item} {is : List Item} {c c1 : Context} {r r' : List Nat}
    {vs : List String}
    (h : seqPass2 gen (i :: is) c r = (.ok (vs, r'), c1)) :
    ∃ r0 rand0 clone0 ws,
      generate_untagged gen i c r = (.ok (r0, rand0), clone0) ∧
      seqPass2 gen is clone0 rand0 = (.ok (ws, r'), c1) ∧
      vs = r0.value :: ws := by
  simp only [seqPass2] at h
  split at h
  next e post heq => exact Except.noConfusion (congrArg Prod.fst h)
  next r0 rand0 clone0 heq =>
    split at h
    next e post heq2 => exact Except.noConfusion (congrArg Prod.fst h)
    next ws r'' c'' heq2 =>
      have hsnd : c'' = c1 := congrArg Prod.snd h
      have hfst := congrArg Prod.fst h
      simp only [Except.ok.injEq, Prod.mk.injEq] at hfst
      exact ⟨r0, rand0, clone0, ws, heq,
        by rw [heq2, hsnd, hfst.2], hfst.1.symm⟩

/-- Inversion for a successful render pass over the empty list. -/
theorem seqPass2_nil_ok {gen : Item → Context → List Nat → GenOut}
    {c c1 : Context} {r r' : List Nat} {vs : List String}
    (h : seqPass2 gen [] c r = (.ok (vs, r'), c1)) :
    vs = [] ∧ r' = r ∧ c1 = c := by
  have hsnd : c = c1 := congrArg Prod.snd h
  have hfst := congrArg Prod.fst h
  simp only [seqPass2, Except.ok.injEq, Prod.mk.injEq] at hfst
  exact ⟨hfst.1.symm, hfst.2.symm, hsnd.symm⟩

/-- The render pass yields exactly one text per child. -/
theorem seqPass2_length {gen : Item → Context → List Nat → GenOut}
    {cs : List Item} {c c1 : Context} {r r' : List Nat} {vs : List String}
    (h : seqPass2 gen cs c r = (.ok (vs, r'), c1)) :
    vs.length = cs.length := by
  induction cs generalizing c r vs r' c1 with
  | nil => rw [(seqPass2_nil_ok h).1]; rfl
  | cons i is ih =>
    obtain ⟨r0, rand0, clone0, ws, heq, htail, hvs⟩ := seqPass2_cons_ok h
    subst hvs
    simp [ih htail]

/-- A render-pass step on a `TagApplication` whose tag is absent from the
clone raises the unresolved-tag error without evaluating anything. -/
theorem generate_untagged_unresolved
    {gen : Item → Context → List Nat → GenOut} {u : Item} {t : String}
    {c : Context} {r : List Nat}
    (hnone : lookupTag c.subcontexts t = none) :
    generate_untagged gen (.tagApp u t) c r = (.error (.unresolvedTag t), c) := by
  have hget : c.get_subcontext t = .error (.unresolvedTag t) := by
    unfold Context.get_subcontext
    rw [hnone]
  simp only [generate_untagged, hget]

/-- If any child of the render list is a `TagApplication` whose tag is not
registered in the clone, the render pass fails with some error. -/
theorem seqPass2_error_exists (f : Nat) : ∀ (cs' : List Item) (j : Nat)
    (r : List Nat) (c : Context) (u : Item) (t : String),
    cs'[j]? = some (.tagApp u t) →
    lookupTag c.subcontexts t = none →
    ∃ e, (seqPass2 (generate f) cs' c r).1 = .error e := by
  intro cs'
  induction cs' with
  | nil => intro j r c u t hj hnone; exact Option.noConfusion hj
  | cons i0 rest ih =>
    intro j r c u t hj hnone
    rcases hres : generate_untagged (generate f) i0 c r with ⟨res, post⟩
    have hpost : post = c := by
      have h3 := congrArg Prod.snd hres
      rw [generate_untagged_post] at h3
      exact h3.symm
    subst hpost
    cases res with
    | error e =>
      refine ⟨e, ?_⟩
      simp only [seqPass2, hres]
    | ok pr =>
      obtain ⟨r0, rand0⟩ := pr
      cases j with
      | zero =>
        simp only [List.getElem?_cons_zero, Option.some.injEq] at hj
        subst hj
        rw [generate_untagged_unresolved hnone] at hres
        exact Except.noConfusion (congrArg Prod.fst hres)
      | succ j =>
        simp only [List.getElem?_cons_succ] at hj
        obtain ⟨e, he⟩ := ih j rand0 post u t hj hnone
        refine ⟨e, ?_⟩
        simp only [seqPass2, hres]
        rcases h2 : seqPass2 (generate f) rest post rand0 with ⟨res2, post2⟩
        rw [h2] at he
        cases res2 with
        | error e2 => simpa using he
        | ok pr2 => exact absurd he (by simp)

/-- If the render pass succeeds on the first `j` children and child `j` is
a `TagApplication` whose tag is not registered, the render pass on the
whole list raises exactly the unresolved-tag error for that tag. -/
theorem seqPass2_reaches_unresolved {f : Nat} {cs' : List Item}
    {c c1 : Context} {r r1 : List Nat} {j : Nat} {u : Item} {t : String}
    {vs : List String}
    (hj : cs'[j]? = some (.tagApp u t))
    (hnone : lookupTag c.subcontexts t = none)
    (htake : seqPass2 (generate f) (cs'.take j) c r = (.ok (vs, r1), c1)) :
    (seqPass2 (generate f) cs' c r).1 = .error (.unresolvedTag t) := by
  induction cs' generalizing j r vs r1 c1 with
  | nil => exact Option.noConfusion hj
  | cons i0 rest ih =>
    cases j with
    | zero =>
      simp only [List.getElem?_cons_zero, Option.some.injEq] at hj
      subst hj
      simp only [seqPass2, generate_untagged_unresolved hnone]
    | succ j =>
      simp only [List.getElem?_cons_succ] at hj
      simp only [List.take_succ_cons] at htake
      obtain ⟨r0, rand0, clone0, ws, heq, htail, hvs⟩ := seqPass2_cons_ok htake
      have hclone0 : clone0 = c := by
        have h3 := congrArg Prod.snd heq
        rw [generate_untagged_post] at h3
        exact h3.symm
      subst hclone0
      have hrec := ih hj htail
      simp only [seqPass2, heq]
      rcases h2 : seqPass2 (generate f) rest clone0 rand0 with ⟨res2, post2⟩
      rw [h2] at hrec
      cases res2 with
      | error e2 => simpa using hrec
      | ok pr2 => exact absurd hrec (by simp)

/-- A binding pass over children none of which is a direct
`TagDefinition` returns the child list, the clone and the random stream
untouched, without evaluating anything. -/
theorem seqPass1_no_tagDefs {gen : Item → Context → List Nat → GenOut}
    {cs : List Item} (c : Context) (r : List Nat)
    (h : ∀ i ∈ cs, ∀ u t, i ≠ .tagDef u t) :
    seqPass1 gen cs c r = (.ok (cs, r), c) := by
  induction cs generalizing c r with
  | nil => rfl
  | cons i0 is ih =>
    have h0 := h i0 (List.mem_cons_self i0 is)
    have htail := fun i hi => h i (List.mem_cons_of_mem i0 hi)
    simp only [seqPass1, gitd_not_tagDef gen c r h0, ih c r htail]

/-- Unfolding a `Sequence` evaluation whose binding pass failed. -/
theorem generate_seq_pass1_error {f : Nat} {cs : List Item}
    {ctx c1 : Context} {rand : List Nat} {e : GenError}
    (h1 : seqPass1 (generate f) cs ctx rand = (.error e, c1)) :
    generate (f + 1) (.seq cs) ctx rand = (.error e, ctx) := by
  simp only [generate]
  split
  next e' heq =>
    rw [h1] at heq
    have h2 := congrArg Prod.fst heq
    simp only [Except.error.injEq] at h2
    rw [h2]
  next untagged rand1 clone1 heq =>
    rw [h1] at heq
    exact Except.noConfusion (congrArg Prod.fst heq)

/-- Unfolding a `Sequence` evaluation whose binding pass succeeded and
whose render pass failed. -/
theorem generate_seq_error {f : Nat} {cs cs' : List Item}
    {ctx c1 : Context} {rand r1 : List Nat} {e : GenError}
    (h1 : seqPass1 (generate f) cs ctx rand = (.ok (cs', r1), c1))
    (h2 : (seqPass2 (generate f) cs' c1 r1).1 = .error e) :
    generate (f + 1) (.seq cs) ctx rand = (.error e, ctx) := by
  simp only [generate]
  split
  next e' heq =>
    rw [h1] at heq
    exact Except.noConfusion (congrArg Prod.fst heq)
  next untagged rand1 clone1 heq =>
    rw [h1] at heq
    have hsnd : c1 = clone1 := congrArg Prod.snd heq
    have hfst := congrArg Prod.fst heq
    simp only [Except.ok.injEq, Prod.mk.injEq] at hfst
    rw [← hsnd, ← hfst.1, ← hfst.2]
    rcases h3 : seqPass2 (generate f) cs' c1 r1 with ⟨res2, post2⟩
    rw [h3] at h2
    cases res2 with
    | error e2 =>
      simp only at h2
      rw [h2]
    | ok pr2 => exact absurd h2 (by simp)

/-- Unfolding a `Sequence` evaluation in which both passes succeeded: the
output is the join of the render pass's texts, with no context. -/
theorem generate_seq_ok {f : Nat} {cs cs' : List Item}
    {ctx c1 c2 : Context} {rand r1 r2 : List Nat} {vals : List String}
    (h1 : seqPass1 (generate f) cs ctx rand = (.ok (cs', r1), c1))
    (h2 : seqPass2 (generate f) cs' c1 r1 = (.ok (vals, r2), c2)) :
    generate (f + 1) (.seq cs) ctx rand =
      (.ok (⟨String.join vals, none⟩, r2), ctx) := by
  simp only [generate]
  split
  next e' heq =>
    rw [h1] at heq
    exact Except.noConfusion (congrArg Prod.fst heq)
  next untagged rand1 clone1 heq =>
    rw [h1] at heq
    have hsnd : c1 = clone1 := congrArg Prod.snd heq
    have hfst := congrArg Prod.fst heq
    simp only [Except.ok.injEq, Prod.mk.injEq] at hfst
    rw [← hsnd, ← hfst.1, ← hfst.2, h2]

/-! ## Claims -/

/-- C1: the binding pass runs left to right over the entire child list of
a `Sequence` (registering each direct `TagDefinition`'s tagged context
into the clone) before any render-pass evaluation, so after a successful
binding pass the tag of a direct `TagDefinition` child at any position is
registered in the clone handed to the render pass — forward references
are resolvable regardless of definition/use order. In particular the
spec's example, with the random draw forced to the female branch, renders
exactly "fell-f on pillow". -/
theorem C1_forward_references :
    (∀ (f : Nat) (cs cs' : List Item) (ctx c1 : Context) (rand r' : List Nat)
      (j : Nat) (u : Item) (t : String),
      seqPass1 (generate f) cs ctx rand = (.ok (cs', r'), c1) →
      cs[j]? = some (.tagDef u t) → ¬ (t = "") →
      (lookupTag c1.subcontexts t).isSome = true) ∧
    generate 10 exampleSeq ctx0 [1] =
      (.ok (⟨"fell-f on pillow", none⟩, []), ctx0) :=
  ⟨fun _ _ _ _ _ _ _ _ _ _ h hj ht => seqPass1_registers h hj ht, rfl⟩

/-- C1 witness: instantiating the binding-pass half on the spec's example
(definition at position 2, tag "x") shows the tag registered. -/
theorem C1_witness : (lookupTag exPass1Ctx.subcontexts "x").isSome = true :=
  C1_forward_references.1 9 exChildren exPass1Items ctx0 exPass1Ctx [1] [] 2
    (Options.mk [Literal.male "rock", Literal.female "pillow"]) "x" rfl rfl
    (by decide)

/-- C2 counterexample: the claim fails in two ways. First, a `Sequence`
whose only child is a `TagApplication` whose tag no `TagDefinition`
direct child registered evaluates without any error when the ambient
context already carries that tag — `cT` is exactly the clone state an
enclosing `Sequence` hands to a nested `Sequence` child after registering
a `TagDefinition` (second conjunct shows this state is reachable from the
empty context). Second, even when the tag is resolvable nowhere, the
raised error need not be of the unresolved-tag kind: an earlier
render-pass sibling that is an empty `Options` fails first with the
sampling error. -/
theorem C2_counterexample :
    generate 5 innerSeq cT [] = (.ok (⟨"w-f", none⟩, []), cT) ∧
    generate 10 (.seq [(Literal.female "Amy").def_tag "t", innerSeq]) ctx0 []
      = (.ok (⟨"Amyw-f", none⟩, []), ctx0) ∧
    seqPass1 (generate 5) cs2 ctx0 [] = (.ok (cs2, []), ctx0) ∧
    generate 6 (.seq cs2) ctx0 [] = (.error .sampleError, ctx0) ∧
    GenError.isUnresolved .sampleError = false :=
  ⟨rfl, rfl, rfl, rfl, rfl⟩

/-- C2 (amended): for every `Sequence` evaluation in which, after a
successful binding pass, some direct `TagApplication` child's tag is
absent from the clone's bindings (neither registered by a direct
`TagDefinition` child nor inherited from the ambient context), evaluation
raises an error, which is the result of the whole `generate` call — no
output string is produced; and if the render pass reaches that child
(the earlier children render without error), the error is exactly the
unresolved-tag error for that tag. -/
theorem C2_unresolvable_tag_fails :
    ∀ (f : Nat) (cs cs' : List Item) (ctx c1 : Context) (rand r1 : List Nat)
      (j : Nat) (u : Item) (t : String),
      seqPass1 (generate f) cs ctx rand = (.ok (cs', r1), c1) →
      cs[j]? = some (.tagApp u t) →
      lookupTag c1.subcontexts t = none →
      (∃ e, generate (f + 1) (.seq cs) ctx rand = (.error e, ctx)) ∧
      (∀ (vs : List String) (rj : List Nat) (cj : Context),
        seqPass2 (generate f) (cs'.take j) c1 r1 = (.ok (vs, rj), cj) →
        generate (f + 1) (.seq cs) ctx rand =
          (.error (.unresolvedTag t), ctx)) := by
  intro f cs cs' ctx c1 rand r1 j u t h1 hj hnone
  have hj' : cs'[j]? = some (.tagApp u t) :=
    seqPass1_get_preserve h1 hj (fun u' t' h => Item.noConfusion h)
  constructor
  · obtain ⟨e, he⟩ := seqPass2_error_exists f cs' j r1 c1 u t hj' hnone
    exact ⟨e, generate_seq_error h1 he⟩
  · intro vs rj cj htake
    exact generate_seq_error h1 (seqPass2_reaches_unresolved hj' hnone htake)

/-- C2 witness: a `Sequence` whose single child applies the unregistered
tag "y" fails with exactly the unresolved-tag error. -/
theorem C2_witness :
    generate 6 (.seq cs3) ctx0 [] = (.error (.unresolvedTag "y"), ctx0) :=
  (C2_unresolvable_tag_fails 5 cs3 cs3 ctx0 ctx0 [] [] 0 (Literal.mk "hi") "y"
    rfl rfl rfl).2 [] [] ctx0 rfl

/-- C3 counterexample: `with_gender` does not share the receiver's
bindings — on a context with a non-empty bindings dict it returns a
context whose bindings are empty. -/
theorem C3_counterexample :
    ¬ ((cGM.with_gender .FEMALE).subcontexts = cGM.subcontexts) := by
  simp [Context.with_gender, cGM]

/-- C3 (amended): `with_gender` and `with_tag` are pure functions; each
returns a new `Context` whose other scalar field (tag, respectively
gender) equals the receiver's, but whose bindings dict starts empty
(freshly initialised by the constructor) rather than sharing the
receiver's bindings. -/
theorem C3_pure_derivations :
    ∀ (c : Context) (g : Gender) (t : String),
      c.with_gender g = Context.mk g c.tag [] ∧
      c.with_tag t = Context.mk c.gender (some t) [] :=
  fun _ _ _ => ⟨rfl, rfl⟩

/-- C4 counterexample: constructing a `Choice` with an empty child list
succeeds and yields an ordinary node (no construction-time error), and
evaluating that node is a runtime error — the `random.sample` failure at
generation time. -/
theorem C4_counterexample :
    Options.mk [] = Item.options [] ∧
    generate 1 (Options.mk []) ctx0 [] = (.error .sampleError, ctx0) :=
  ⟨rfl, rfl⟩

/-- C4 (amended): no validation happens at tree-build time. An empty
`Choice` child list errors at evaluation time with the sampling error; a
`TagDefinition` with an empty tag evaluates successfully and is silently
skipped by registration (the clone is unchanged — no error at all); a
`TagApplication` with an empty tag fails at render time with the
unresolved-tag error; and the wrapper constructors accept any tag
unconditionally. -/
theorem C4_no_construction_validation :
    (∀ (f : Nat) (ctx : Context) (rand : List Nat),
      generate (f + 1) (Options.mk []) ctx rand = (.error .sampleError, ctx)) ∧
    (∀ (f : Nat) (u i' : Item) (c post : Context) (r r' : List Nat),
      generate_if_tag_def (generate f) (.tagDef u "") c r = (.ok (i', r'), post) →
      post = c) ∧
    (∀ (f : Nat) (u : Item) (c : Context) (r : List Nat),
      lookupTag c.subcontexts "" = none →
      generate_untagged (generate f) (.tagApp u "") c r =
        (.error (.unresolvedTag ""), c)) ∧
    (∀ (u : Item) (t : String),
      Item.def_tag u t = .tagDef u t ∧ Item.apply_tag u t = .tagApp u t) := by
  refine ⟨fun _ _ _ => rfl, ?_, ?_, fun _ _ => ⟨rfl, rfl⟩⟩
  · intro f u i' c post r r' h
    simp only [generate_if_tag_def] at h
    split at h
    next e post0 heq => exact Except.noConfusion (congrArg Prod.fst h)
    next r0 rand0 post0 heq =>
      have hpost0 : post0 = c := by
        have h3 := congrArg Prod.snd heq
        rw [generate_post] at h3
        exact h3.symm
      obtain ⟨rc, v, hr0⟩ := generate_tagDef_context heq
      split at h
      next sub hctx =>
        have hsub : sub = rc.with_tag "" := by
          rw [hr0] at hctx
          have h4 : some (rc.with_tag "") = some sub := hctx
          simpa using h4.symm
        have htr : tagTruthy sub.tag = false := by
          rw [hsub]
          simp [tagTruthy, Context.with_tag]
        rw [if_neg (by rw [htr]; exact Bool.false_ne_true)] at h
        exact ((congrArg Prod.snd h).symm.trans hpost0)
      next hctx =>
        rw [hr0] at hctx
        exact Option.noConfusion hctx
  · intro f u c r hnone
    exact generate_untagged_unresolved hnone

/-- C4 witness: a `TagDefinition` with empty tag over a `Literal` leaves
the clone untouched, and a `TagApplication` with empty tag under the
empty context raises the unresolved-tag error at render time. -/
theorem C4_witness :
    ctx0 = ctx0 ∧
    generate_untagged (generate 1) (.tagApp (Literal.mk "a") "") ctx0 [] =
      (.error (.unresolvedTag ""), ctx0) :=
  ⟨C4_no_construction_validation.2.1 2 (Literal.mk "a") (.lit "a" .INVALID)
      ctx0 ctx0 [] [] rfl,
   C4_no_construction_validation.2.2.1 1 (Literal.mk "a") ctx0 [] rfl⟩

/-- C5 counterexample: under a context with gender `FEMALE` and a tag,
evaluating the bare string "s" and evaluating `Literal("s")` do not
return the same result — the bare string's result context is the ambient
context while the `Literal`'s is a fresh unset-gender context. -/
theorem C5_counterexample :
    ¬ (generate 1 (.str "s") cF [] = generate 1 (Literal.mk "s") cF []) := by
  intro h
  have h2 := congrArg
    (fun q : GenOut =>
      match q.1 with
      | .ok (r, _) =>
        match r.context with
        | some c => c.gender
        | none => Gender.INVALID
      | .error _ => Gender.INVALID) h
  exact absurd h2 (by decide)

/-- C5 (amended): for every string and context, the bare-string form and
`Literal(value=string)` produce the same value, but different result
contexts: the bare string returns the ambient context itself, while the
`Literal` returns a fresh context with unset gender, no tag and empty
bindings — they agree exactly when the ambient context is that fresh
context. -/
theorem C5_bare_string_vs_literal :
    ∀ (f : Nat) (s : String) (c : Context) (r : List Nat),
      generate (f + 1) (.str s) c r = (.ok (⟨s, some c⟩, r), c) ∧
      generate (f + 1) (Literal.mk s) c r =
        (.ok (⟨s, some (Context.mk .INVALID none [])⟩, r), c) :=
  fun _ _ _ _ => ⟨rfl, rfl⟩

/-- C6: a `Sequence`'s output equals the ordered concatenation (plain
join, no separators) of the render pass's per-child texts — one text per
child — and the `GenerateResult` of a `Sequence` carries no context, for
every input. -/
theorem C6_concatenation_law :
    (∀ (f : Nat) (cs : List Item) (ctx : Context) (rand : List Nat)
      (res : GenerateResult) (rr : List Nat),
      (generate (f + 1) (.seq cs) ctx rand).1 = .ok (res, rr) →
      res.context = none) ∧
    (∀ (f : Nat) (cs cs' : List Item) (ctx c1 c2 : Context)
      (rand r1 r2 : List Nat) (vals : List String),
      seqPass1 (generate f) cs ctx rand = (.ok (cs', r1), c1) →
      seqPass2 (generate f) cs' c1 r1 = (.ok (vals, r2), c2) →
      generate (f + 1) (.seq cs) ctx rand =
        (.ok (⟨String.join vals, none⟩, r2), ctx) ∧
      vals.length = cs.length) := by
  constructor
  · intro f cs ctx rand res rr h
    rcases h1 : seqPass1 (generate f) cs ctx rand with ⟨res1, c1⟩
    cases res1 with
    | error e =>
      rw [generate_seq_pass1_error h1] at h
      exact Except.noConfusion h
    | ok pr1 =>
      obtain ⟨cs', r1⟩ := pr1
      rcases h2 : seqPass2 (generate f) cs' c1 r1 with ⟨res2, c2⟩
      cases res2 with
      | error e =>
        have he : (seqPass2 (generate f) cs' c1 r1).1 = .error e := by rw [h2]
        rw [generate_seq_error h1 he] at h
        exact Except.noConfusion h
      | ok pr2 =>
        obtain ⟨vals, r2⟩ := pr2
        rw [generate_seq_ok h1 h2] at h
        have h5 : (Except.ok (⟨String.join vals, none⟩, r2) :
            Except GenError (GenerateResult × List Nat)) = .ok (res, rr) := h
        simp only [Except.ok.injEq, Prod.mk.injEq] at h5
        rw [← h5.1]
  · intro f cs cs' ctx c1 c2 rand r1 r2 vals h1 h2
    exact ⟨generate_seq_ok h1 h2,
      (seqPass2_length h2).trans (seqPass1_length h1)⟩

/-- C6 witness: the spec's example sequence joins its three per-child
texts with no separators and exposes no context. -/
theorem C6_witness :
    generate 10 (.seq exChildren) ctx0 [1] =
      (.ok (⟨String.join ["fell-f", " on ", "pillow"], none⟩, []), ctx0) ∧
    (["fell-f", " on ", "pillow"] : List String).length = exChildren.length :=
  C6_concatenation_law.2 9 exChildren exPass1Items ctx0 exPass1Ctx exPass1Ctx
    [1] [] [] ["fell-f", " on ", "pillow"] rfl rfl

/-- C7: evaluating a `Literal` under any ambient context (in particular
one with female gender, a tag and non-empty bindings) returns its stored
value unchanged together with a brand-new context carrying only the
`Literal`'s declared gender — tag `none`, bindings empty; the ambient
context never leaks through. -/
theorem C7_literal_resets_context :
    ∀ (f : Nat) (v : String) (g : Gender) (ctx : Context) (r : List Nat),
      generate (f + 1) (.lit v g) ctx r =
        (.ok (⟨v, some (Context.mk g none [])⟩, r), ctx) :=
  fun _ _ _ _ _ => rfl

/-- C8: a `GenderedForm` returns its female string exactly when the
ambient gender is `FEMALE` (male otherwise, including the unset default)
with the ambient context returned unchanged; and constructing it from
only a male string defaults the female form to the male form plus the
feminine suffix. -/
theorem C8_gendered_selection :
    (∀ (f : Nat) (m fe : String) (ctx : Context) (r : List Nat),
      generate (f + 1) (.gendered m fe) ctx r =
        (.ok (⟨if ctx.gender = .FEMALE then fe else m, some ctx⟩, r), ctx)) ∧
    (∀ X : String, Gendered.mk X none = .gendered X (X ++ feminineSuffix)) :=
  ⟨fun _ _ _ _ _ => rfl, fun _ => rfl⟩

/-- C9: evaluating any node never mutates the caller's context: the
post-call state of the context object passed in equals its state before
the call, for every node, context, random stream and fuel — in
particular a `Sequence` works only on the deep copy taken at entry. -/
theorem C9_no_caller_mutation :
    ∀ (f : Nat) (i : Item) (c : Context) (r : List Nat),
      (generate f i c r).2 = c :=
  generate_post

/-- C10: the two-pass tag machinery inspects only direct children.
Evaluating a `TagApplication` anywhere other than as a direct `Sequence`
child (so, via plain dispatch — as happens when it is nested inside a
`Choice` alternative or another wrapper) is identical to evaluating its
underlying item under the ambient context: no lookup, no error from the
machinery. A binding pass over children with no direct `TagDefinition`
registers nothing and evaluates nothing, whatever is nested deeper; and
the render pass never adds a registration either. -/
theorem C10_direct_children_only :
    (∀ (f : Nat) (u : Item) (t : String) (c : Context) (r : List Nat),
      (∀ s, u ≠ .str s) →
      generate (f + 1) (.tagApp u t) c r = generate f u c r) ∧
    (∀ (gen : Item → Context → List Nat → GenOut) (cs : List Item)
      (c : Context) (r : List Nat),
      (∀ i ∈ cs, ∀ u t, i ≠ .tagDef u t) →
      seqPass1 gen cs c r = (.ok (cs, r), c)) ∧
    (∀ (f : Nat) (cs' : List Item) (c : Context) (r : List Nat),
      (seqPass2 (generate f) cs' c r).2 = c) := by
  refine ⟨?_, ?_, ?_⟩
  · intro f u t c r hu
    cases u with
    | str s => exact absurd rfl (hu s)
    | options l => rfl
    | seq cs => rfl
    | gendered m fe => rfl
    | lit v g => rfl
    | tagDef u' t' => rfl
    | tagApp u' t' => rfl
  · intro gen cs c r h
    exact seqPass1_no_tagDefs c r h
  · intro f cs' c r
    exact seqPass2_post f cs' c r

/-- C10 witness: a `TagApplication` of an unregistered tag evaluated via
plain dispatch equals evaluating its underlying `GenderedForm`, and a
binding pass over a `Literal`-only child list is the identity. -/
theorem C10_witness :
    generate 3 (.tagApp (.gendered "a" "b") "zzz") ctx0 [] =
      generate 2 (.gendered "a" "b") ctx0 [] ∧
    seqPass1 (generate 1) [Literal.mk "hi"] ctx0 [] =
      (.ok ([Literal.mk "hi"], []), ctx0) :=
  ⟨C10_direct_children_only.1 2 (.gendered "a" "b") "zzz" ctx0 []
      (fun s h => Item.noConfusion h),
   C10_direct_children_only.2.1 (generate 1) [Literal.mk "hi"] ctx0 []
      (fun i hi u t h => by
        rw [List.mem_singleton] at hi
        rw [hi] at h
        exact Item.noConfusion h)⟩

end ExcuseGen
